import Mathlib

/-!
Verification of the hoop-detective guessing game (Go sources: main.go,
player.go, game.go) against its natural-language specification.

The Go code is shallowly embedded: Go `string` becomes Lean `String`
(character-based where Go indexes bytes; all relevant data is ASCII),
Go `int` becomes `Int`, Go slices become `List`, Go `map[string]bool`
used as a set becomes `List String`, functions returning `(*T, bool)`
become `Option T`, and the `rand.Intn n` draw is an arbitrary `Nat`
reduced modulo `n`.
-/

namespace Hoop

/-- A record of the `Player` struct from player.go: the ten attributes of an
NBA player used by the guessing game. -/
structure Player where
  Name         : String
  Team         : String
  Position     : String
  Height       : String
  College      : String
  DraftYear    : Int
  DraftRound   : Int
  DraftNumber  : Int
  JerseyNumber : String
  Country      : String
deriving DecidableEq

/-- Embedding of `abs` from game.go: absolute value of a (Go) integer. -/
def goAbs (x : Int) : Int :=
  if x < 0 then -x else x

/-- A record of the `ComparisonResult` struct from game.go: one formatted,
color-marked string per compared attribute. -/
structure ComparisonResult where
  Name         : String
  Team         : String
  Position     : String
  Height       : String
  College      : String
  DraftYear    : String
  DraftRound   : String
  DraftNumber  : String
  JerseyNumber : String
  Country      : String
deriving DecidableEq

/-- Embedding of `compareWithTarget` from game.go: compares a guessed player
with the target attribute by attribute and returns the color-coded result
strings ("🟢 " exact, "🟡 " close, "🔴 " none), with the undrafted
sentinel 0 rendered as "Undrafted" (round) and "N/A" (pick number). -/
def compareWithTarget (guess target : Player) : ComparisonResult :=
  { Name :=
      if guess.Name = target.Name then "🟢 " ++ guess.Name
      else "🔴 " ++ guess.Name
    Team :=
      if guess.Team = target.Team then "🟢 " ++ guess.Team
      else "🔴 " ++ guess.Team
    Position :=
      if guess.Position = target.Position then "🟢 " ++ guess.Position
      else "🔴 " ++ guess.Position
    Height :=
      if guess.Height = target.Height then "🟢 " ++ guess.Height
      else "🔴 " ++ guess.Height
    College :=
      if guess.College = target.College then "🟢 " ++ guess.College
      else "🔴 " ++ guess.College
    DraftYear :=
      if guess.DraftYear = target.DraftYear then "🟢 " ++ toString guess.DraftYear
      else if goAbs (guess.DraftYear - target.DraftYear) ≤ 2 then
        "🟡 " ++ toString guess.DraftYear
      else "🔴 " ++ toString guess.DraftYear
    DraftRound :=
      if guess.DraftRound = target.DraftRound then
        if guess.DraftRound = 0 then "🟢 Undrafted"
        else "🟢 " ++ toString guess.DraftRound
      else
        if guess.DraftRound = 0 then "🔴 Undrafted"
        else "🔴 " ++ toString guess.DraftRound
    DraftNumber :=
      if guess.DraftNumber = target.DraftNumber then
        if guess.DraftNumber = 0 then "🟢 N/A"
        else "🟢 " ++ toString guess.DraftNumber
      else if guess.DraftNumber ≠ 0 ∧ target.DraftNumber ≠ 0 ∧
          goAbs (guess.DraftNumber - target.DraftNumber) ≤ 5 then
        "🟡 " ++ toString guess.DraftNumber
      else
        if guess.DraftNumber = 0 then "🔴 N/A"
        else "🔴 " ++ toString guess.DraftNumber
    JerseyNumber :=
      if guess.JerseyNumber = target.JerseyNumber then "🟢 " ++ guess.JerseyNumber
      else "🔴 " ++ guess.JerseyNumber
    Country :=
      if guess.Country = target.Country then "🟢 " ++ guess.Country
      else "🔴 " ++ guess.Country }

/-- Per-attribute comparison outcome, as named by the specification. -/
inductive Verdict where
  | Exact
  | Close
  | NoMatch
deriving DecidableEq

/-- Reads the verdict off a formatted result field by its leading color
marker: "🟢" is Exact, "🟡" is Close, anything else is NoMatch. -/
def verdictOf (s : String) : Verdict :=
  match s.data with
  | [] => Verdict.NoMatch
  | c :: _ => if c = '🟢' then Verdict.Exact
              else if c = '🟡' then Verdict.Close
              else Verdict.NoMatch

/-- Embedding of Go `strings.ToLower` (character-wise lower-casing). -/
def toLowerS (s : String) : String :=
  ⟨s.data.map Char.toLower⟩

/-- Embedding of Go `strings.TrimSpace`: drops whitespace from both ends. -/
def trimS (s : String) : String :=
  ⟨((s.data.dropWhile Char.isWhitespace).reverse.dropWhile Char.isWhitespace).reverse⟩

/-- Helper for substring containment: whether the first list is an initial
segment of the second. -/
def leadsWith : List Char → List Char → Bool
  | [], _ => true
  | _ :: _, [] => false
  | a :: as, b :: bs => a == b && leadsWith as bs

/-- Helper for substring containment: whether `sub` occurs contiguously
inside `hay`. -/
def containsChars : List Char → List Char → Bool
  | [], sub => leadsWith sub []
  | a :: t, sub => leadsWith sub (a :: t) || containsChars t sub

/-- Embedding of Go `strings.Contains s sub`. -/
def strContains (s sub : String) : Bool :=
  containsChars s.data sub.data

/-- The exact-match predicate of the first loop of `findPlayerByName` in
player.go: case-insensitive full-name equality with the normalized query. -/
def exactNameMatch (lowerName : String) (p : Player) : Bool :=
  toLowerS p.Name == lowerName

/-- The partial-match predicate of the second loop of `findPlayerByName` in
player.go: case-insensitive substring containment in either direction, each
direction gated by a length-3 floor on the contained string. -/
def partialNameMatch (lowerName : String) (p : Player) : Bool :=
  let playerLower := toLowerS p.Name
  (strContains playerLower lowerName && decide (3 ≤ lowerName.length)) ||
  (strContains lowerName playerLower && decide (3 ≤ playerLower.length))

/-- Embedding of `findPlayerByName` from player.go: normalizes the query by
trimming and lower-casing, scans for the first exact case-insensitive match,
and only failing that scans for the first partial match. The Go global
`players` slice is passed explicitly. -/
def findPlayerByName (players : List Player) (name : String) : Option Player :=
  let lowerName := toLowerS (trimS name)
  match players.find? (exactNameMatch lowerName) with
  | some p => some p
  | none => players.find? (partialNameMatch lowerName)

/-- The `allAttributes` list of `showUniqueRandomAttributeHint` in main.go:
the universe of hintable attribute names. -/
def allAttributes : List String :=
  ["team", "position", "height", "college", "draftyear", "draftround",
   "draftnumber", "jerseynumber", "country"]

/-- Embedding of `showUniqueRandomAttributeHint` from main.go: computes the
attributes not yet used, returns `false` (and the unchanged set) if none
remain, otherwise marks a pseudo-randomly selected one used and returns
`true`. The `rand.Intn` draw is modelled by an arbitrary `pick : Nat` taken
modulo the number of available attributes; the Go `map[string]bool` set is
modelled as a list. The printed hint text is I/O and not modelled. -/
def showUniqueRandomAttributeHint (used : List String) (pick : Nat) :
    Bool × List String :=
  match allAttributes.filter (fun a => !(used.contains a)) with
  | [] => (false, used)
  | a :: rest => (true, (a :: rest).getD (pick % (a :: rest).length) a :: used)

/-- Iterates `showUniqueRandomAttributeHint` over a list of random draws,
threading the used-attribute set. -/
def runAllocator : List Nat → List String → List String
  | [], used => used
  | p :: ps, used => runAllocator ps (showUniqueRandomAttributeHint used p).2

/-- Helper for Go `strings.Fields`: splits a character list at whitespace. -/
def splitWsAux : List Char → List Char → List (List Char)
  | [], acc => [acc.reverse]
  | c :: cs, acc =>
    if c.isWhitespace then acc.reverse :: splitWsAux cs []
    else splitWsAux cs (c :: acc)

/-- Embedding of Go `strings.Fields`: whitespace-delimited parts, empties
dropped. -/
def fieldsS (s : String) : List String :=
  ((splitWsAux s.data []).filter (fun l => !l.isEmpty)).map (fun l => ⟨l⟩)

/-- First `n` characters of a string (Go `part[:n]` on ASCII data). -/
def takeS (s : String) (n : Nat) : String :=
  ⟨s.data.take n⟩

/-- Embedding of Go `strings.Repeat`. -/
def repeatS (s : String) (n : Nat) : String :=
  ⟨(List.replicate n s.data).flatten⟩

/-- Embedding of Go `strings.Join` with a separator. -/
def joinWith (sep : String) : List String → String
  | [] => ""
  | x :: xs => xs.foldl (fun acc y => acc ++ sep ++ y) x

/-- Embedding of `getNameHint` from main.go: level 1 turns every name part
into its first letter plus an underscore; level 2 shows a prefix of each
part (1 letter for length ≤ 3, 2 for length ≤ 5, else 3) padded with
underscores to the part's length plus a character-count annotation; any
other level behaves like level 1. -/
def getNameHint (fullName : String) (hintLevel : Nat) : String :=
  let nameParts := fieldsS fullName
  if nameParts = [] then "Unknown"
  else
    match hintLevel with
    | 1 =>
      joinWith " " (nameParts.filterMap (fun part =>
        if 0 < part.length then some (takeS part 1 ++ "_") else none))
    | 2 =>
      joinWith " " (nameParts.filterMap (fun part =>
        if part.length = 0 then none
        else
          let hint :=
            if part.length ≤ 3 then takeS part 1 ++ repeatS "_" (part.length - 1)
            else if part.length ≤ 5 then takeS part 2 ++ repeatS "_" (part.length - 2)
            else takeS part 3 ++ repeatS "_" (part.length - 3)
          some (hint ++ " (" ++ toString part.length ++ " letters)")))
    | _ =>
      joinWith " " (nameParts.filterMap (fun part =>
        if 0 < part.length then some (takeS part 1 ++ "_") else none))

/-- The `maxAttempts` constant of main.go. -/
def maxAttempts : Nat := 8

/-- The `maxHints` constant of main.go. -/
def maxHints : Nat := 3

/-- Terminal and non-terminal session outcomes of the main.go game loop. -/
inductive Outcome where
  | Active
  | Won
  | LostByAttempts
  | LostByTime
  | Quit
deriving DecidableEq

/-- The mutable session state of main.go's game loop: attempt counter, hint
counter, revealed-attribute set and outcome. -/
structure GameState where
  attempts : Nat
  hintsUsed : Nat
  usedHintAttributes : List String
  outcome : Outcome
deriving DecidableEq

/-- The session state at the start of main.go's game loop. -/
def initState : GameState :=
  { attempts := 0, hintsUsed := 0, usedHintAttributes := [], outcome := Outcome.Active }

/-- One turn's resolved event: either the deadline fired (top-of-loop check
or the select race) or one line of input became available, together with the
random draw a hint on that turn would use. A closed or unreadable input
stream delivers the line `""` (the goroutine in main.go sends `""` when
`scanner.Scan()` fails). -/
inductive TurnEvent where
  | timeout
  | line (input : String) (pick : Nat)
deriving DecidableEq

/-- Embedding of one iteration of main.go's game loop body on a resolved
event: timeout ends the session as LostByTime; otherwise the trimmed input
is classified as quit, hint (budget-checked, then allocator-invoked), or a
guess resolved through `findPlayerByName`, with the attempt counter
incremented exactly on resolved guesses and the win/attempts-exhausted
checks applied after scoring. -/
def stepTurn (players : List Player) (target : Player) (st : GameState)
    (ev : TurnEvent) : GameState :=
  match ev with
  | TurnEvent.timeout => { st with outcome := Outcome.LostByTime }
  | TurnEvent.line input pick =>
    let guess := trimS input
    if toLowerS guess == "quit" then { st with outcome := Outcome.Quit }
    else if toLowerS guess == "hint" then
      if st.hintsUsed ≥ maxHints then st
      else
        let r := showUniqueRandomAttributeHint st.usedHintAttributes pick
        if r.1 then
          { st with hintsUsed := st.hintsUsed + 1, usedHintAttributes := r.2 }
        else st
    else
      match findPlayerByName players guess with
      | none => st
      | some gp =>
        let att := st.attempts + 1
        if gp.Name = target.Name then
          { st with attempts := att, outcome := Outcome.Won }
        else if att = maxAttempts then
          { st with attempts := att, outcome := Outcome.LostByAttempts }
        else { st with attempts := att }

/-- Runs main.go's game loop over a list of resolved events: each iteration
requires the session to still be active and under the attempt budget
(`for attempts < maxAttempts`, with every terminal branch returning). -/
def runGame (players : List Player) (target : Player) :
    GameState → List TurnEvent → GameState
  | st, [] => st
  | st, ev :: evs =>
    if st.outcome = Outcome.Active ∧ st.attempts < maxAttempts then
      runGame players target (stepTurn players target st ev) evs
    else st

/-- Whether a turn event is a guess that resolves to a known player: exactly
the condition under which main.go increments the attempt counter. -/
def countsAsAttempt (players : List Player) : TurnEvent → Bool
  | TurnEvent.timeout => false
  | TurnEvent.line input _ =>
    let g := trimS input
    !(toLowerS g == "quit") && !(toLowerS g == "hint") &&
    (findPlayerByName players g).isSome

/-- Whether a turn event is a guess resolving to a known player other than
the target. -/
def resolvesNonTargetB (players : List Player) (target : Player) :
    TurnEvent → Bool
  | TurnEvent.timeout => false
  | TurnEvent.line input _ =>
    let g := trimS input
    !(toLowerS g == "quit") && !(toLowerS g == "hint") &&
    (match findPlayerByName players g with
     | some gp => gp.Name != target.Name
     | none => false)

/-- The structural invariant of the session's hint bookkeeping: the
revealed-attribute set has one entry per used hint, no duplicates, only
hintable attribute names, and the hint counter never exceeds the budget. -/
def SessionInv (st : GameState) : Prop :=
  st.usedHintAttributes.length = st.hintsUsed ∧
  st.usedHintAttributes.Nodup ∧
  (∀ a ∈ st.usedHintAttributes, a ∈ allAttributes) ∧
  st.hintsUsed ≤ maxHints

/-- A player record with the given name and sentinel values elsewhere, for
concrete test directories. -/
def mkPlayer (n : String) : Player :=
  { Name := n, Team := "Free Agent", Position := "Unknown", Height := "Unknown",
    College := "Unknown", DraftYear := 0, DraftRound := 0, DraftNumber := 0,
    JerseyNumber := "Unknown", Country := "Unknown" }

theorem verdictOf_green (s : String) : verdictOf ("🟢 " ++ s) = Verdict.Exact := by
  cases s with
  | mk data => rfl

theorem verdictOf_yellow (s : String) : verdictOf ("🟡 " ++ s) = Verdict.Close := by
  cases s with
  | mk data => rfl

theorem verdictOf_red (s : String) : verdictOf ("🔴 " ++ s) = Verdict.NoMatch := by
  cases s with
  | mk data => rfl

theorem goAbs_natAbs (x : Int) : goAbs x = x.natAbs := by
  unfold goAbs
  split_ifs <;> omega

theorem verdictOf_green_na : verdictOf "🟢 N/A" = Verdict.Exact := rfl

theorem verdictOf_red_na : verdictOf "🔴 N/A" = Verdict.NoMatch := rfl

theorem verdictOf_green_undrafted : verdictOf "🟢 Undrafted" = Verdict.Exact := rfl

theorem verdictOf_red_undrafted : verdictOf "🔴 Undrafted" = Verdict.NoMatch := rfl

/-- C6: for all draft years, the draftYear verdict of `compareWithTarget` is
Exact iff the years are equal, Close iff the absolute difference is in
(0, 2], and NoMatch iff the absolute difference exceeds 2. -/
theorem claim_C6_draftYear_verdict (g t : Player) :
    (verdictOf (compareWithTarget g t).DraftYear = Verdict.Exact ↔
      g.DraftYear = t.DraftYear) ∧
    (verdictOf (compareWithTarget g t).DraftYear = Verdict.Close ↔
      0 < goAbs (g.DraftYear - t.DraftYear) ∧ goAbs (g.DraftYear - t.DraftYear) ≤ 2) ∧
    (verdictOf (compareWithTarget g t).DraftYear = Verdict.NoMatch ↔
      2 < goAbs (g.DraftYear - t.DraftYear)) := by
  simp only [compareWithTarget, goAbs_natAbs]
  split_ifs with h1 h2 <;>
    refine ⟨?_, ?_, ?_⟩ <;>
    simp only [verdictOf_green, verdictOf_yellow, verdictOf_red,
      eq_self_iff_true, true_iff, reduceCtorEq, false_iff] <;>
    omega

/-- C1: the draftNumber verdict of `compareWithTarget` is Exact iff the two
pick numbers are equal (both-zero rendered "N/A", never the literal 0),
Close iff both are nonzero and the absolute difference is in (0, 5], and
NoMatch otherwise; in particular when exactly one side is 0 (undrafted) the
verdict is NoMatch, never Close. -/
theorem claim_C1_draftNumber_verdict (g t : Player) :
    (verdictOf (compareWithTarget g t).DraftNumber = Verdict.Exact ↔
      g.DraftNumber = t.DraftNumber) ∧
    (verdictOf (compareWithTarget g t).DraftNumber = Verdict.Close ↔
      g.DraftNumber ≠ 0 ∧ t.DraftNumber ≠ 0 ∧
      0 < goAbs (g.DraftNumber - t.DraftNumber) ∧
      goAbs (g.DraftNumber - t.DraftNumber) ≤ 5) ∧
    (g.DraftNumber = 0 → t.DraftNumber = 0 →
      (compareWithTarget g t).DraftNumber = "🟢 N/A") ∧
    ((g.DraftNumber = 0 ↔ t.DraftNumber ≠ 0) →
      verdictOf (compareWithTarget g t).DraftNumber = Verdict.NoMatch) := by
  simp only [compareWithTarget, goAbs_natAbs]
  split_ifs with h1 h2 h3 h4 <;>
    refine ⟨?_, ?_, ?_, ?_⟩ <;>
    (try simp only [verdictOf_green, verdictOf_yellow, verdictOf_red, verdictOf_green_na,
      verdictOf_red_na, eq_self_iff_true, true_iff, reduceCtorEq, false_iff,
      implies_true]) <;>
    first
      | omega
      | (intro hz1 hz2
         exact (show False by omega).elim)
      | (intro hh
         exact (show False by omega).elim)

/-- C7: the draftRound verdict of `compareWithTarget` is Exact iff the two
rounds are equal (0 = 0, both undrafted, also counts and is rendered
"Undrafted", never the literal 0), is never Close (no close tier), and is
NoMatch otherwise. -/
theorem claim_C7_draftRound_verdict (g t : Player) :
    (verdictOf (compareWithTarget g t).DraftRound = Verdict.Exact ↔
      g.DraftRound = t.DraftRound) ∧
    (verdictOf (compareWithTarget g t).DraftRound ≠ Verdict.Close) ∧
    (g.DraftRound = 0 → t.DraftRound = 0 →
      (compareWithTarget g t).DraftRound = "🟢 Undrafted") := by
  simp only [compareWithTarget]
  split_ifs with h1 h2 h3 <;>
    refine ⟨?_, ?_, ?_⟩ <;>
    (try simp only [verdictOf_green, verdictOf_red, verdictOf_green_undrafted,
      verdictOf_red_undrafted, eq_self_iff_true, true_iff, reduceCtorEq, false_iff,
      ne_eq, not_false_iff, implies_true]) <;>
    first
      | omega
      | (intro hz1 hz2
         exact (show False by omega).elim)

theorem claim_C1_witness :
    verdictOf (compareWithTarget { mkPlayer "A" with DraftNumber := 0 }
      { mkPlayer "B" with DraftNumber := 10 }).DraftNumber = Verdict.NoMatch :=
  (claim_C1_draftNumber_verdict { mkPlayer "A" with DraftNumber := 0 }
    { mkPlayer "B" with DraftNumber := 10 }).2.2.2 (by decide)

theorem claim_C6_witness :
    verdictOf (compareWithTarget { mkPlayer "A" with DraftYear := 2001 }
      { mkPlayer "B" with DraftYear := 2000 }).DraftYear = Verdict.Close :=
  ((claim_C6_draftYear_verdict { mkPlayer "A" with DraftYear := 2001 }
    { mkPlayer "B" with DraftYear := 2000 }).2.1).mpr (by decide)

theorem claim_C7_witness :
    (compareWithTarget (mkPlayer "A") (mkPlayer "B")).DraftRound = "🟢 Undrafted" :=
  (claim_C7_draftRound_verdict (mkPlayer "A") (mkPlayer "B")).2.2 rfl rfl

theorem allAttributes_nodup : allAttributes.Nodup := by decide

theorem hint_step_success (used : List String) (pick : Nat)
    (hnd : used.Nodup) (hsub : ∀ a ∈ used, a ∈ allAttributes)
    (hlen : used.length < 9) :
    (showUniqueRandomAttributeHint used pick).1 = true ∧
    ∃ sel, sel ∈ allAttributes ∧ sel ∉ used ∧
      (showUniqueRandomAttributeHint used pick).2 = sel :: used := by
  unfold showUniqueRandomAttributeHint
  cases hav : allAttributes.filter (fun a => !(used.contains a)) with
  | nil =>
    exfalso
    have hsub2 : allAttributes ⊆ used := by
      intro a ha
      have hfa := List.filter_eq_nil_iff.mp hav a ha
      simpa using hfa
    have hle := (List.subperm_of_subset allAttributes_nodup hsub2).length_le
    simp [allAttributes] at hle
    omega
  | cons a rest =>
    refine ⟨rfl, (a :: rest).getD (pick % (a :: rest).length) a, ?_, ?_, rfl⟩ <;>
    · have hlt : pick % (a :: rest).length < (a :: rest).length :=
        Nat.mod_lt _ (by simp)
      have hmem : (a :: rest).getD (pick % (a :: rest).length) a ∈ a :: rest := by
        rw [List.getD_eq_getElem _ _ hlt]
        exact List.getElem_mem hlt
      have hmemf : (a :: rest).getD (pick % (a :: rest).length) a ∈
          allAttributes.filter (fun x => !(used.contains x)) := hav ▸ hmem
      have hsp := List.mem_filter.mp hmemf
      first
        | exact hsp.1
        | simpa using hsp.2

theorem runAllocator_inv (picks : List Nat) (used : List String)
    (hnd : used.Nodup) (hsub : ∀ a ∈ used, a ∈ allAttributes)
    (hlen : used.length + picks.length ≤ 9) :
    (runAllocator picks used).Nodup ∧
    (∀ a ∈ runAllocator picks used, a ∈ allAttributes) ∧
    (runAllocator picks used).length = used.length + picks.length := by
  induction picks generalizing used with
  | nil =>
    refine ⟨hnd, ?_, by simp [runAllocator]⟩
    simpa [runAllocator] using hsub
  | cons p ps ih =>
    obtain ⟨hs, sel, hselA, hselN, hrec⟩ :=
      hint_step_success used p hnd hsub (by simp at hlen; omega)
    unfold runAllocator
    rw [hrec]
    have hih := ih (sel :: used) (List.nodup_cons.mpr ⟨hselN, hnd⟩)
      (by
        intro a ha
        rcases List.mem_cons.mp ha with h | h
        · exact h ▸ hselA
        · exact hsub a h)
      (by simp at hlen ⊢; omega)
    obtain ⟨h1, h2, h3⟩ := hih
    refine ⟨h1, h2, ?_⟩
    simp at h3 ⊢
    omega

theorem allocator_exhausted (used : List String) (pick : Nat)
    (hnd : used.Nodup) (hsub : ∀ a ∈ used, a ∈ allAttributes)
    (hlen : used.length = 9) :
    showUniqueRandomAttributeHint used pick = (false, used) := by
  have hall : ∀ a ∈ allAttributes, a ∈ used := by
    intro a haA
    by_contra hnot
    have hnd2 : (a :: used).Nodup := List.nodup_cons.mpr ⟨hnot, hnd⟩
    have hsub2 : (a :: used) ⊆ allAttributes := by
      intro x hx
      rcases List.mem_cons.mp hx with h | h
      · exact h ▸ haA
      · exact hsub x h
    have hle := (List.subperm_of_subset hnd2 hsub2).length_le
    simp [allAttributes] at hle
    omega
  have hfil : allAttributes.filter (fun x => !(used.contains x)) = [] := by
    apply List.filter_eq_nil_iff.mpr
    intro a ha
    simpa using hall a ha
  unfold showUniqueRandomAttributeHint
  rw [hfil]

/-- C3: starting from an empty revealed set, 9 invocations of the random
attribute hint allocator (9 being the size of the hintable-attribute
universe), with arbitrary random draws, all succeed and reveal 9 distinct
attribute names from the universe with no repeats, and a 10th call returns
exhausted (false) without modifying the revealed set. -/
theorem claim_C3_allocator_exhaustion (picks : List Nat) (h9 : picks.length = 9) :
    (∀ i, i < 9 →
      (showUniqueRandomAttributeHint (runAllocator (picks.take i) [])
        (picks.getD i 0)).1 = true) ∧
    (runAllocator picks []).Nodup ∧
    (runAllocator picks []).length = 9 ∧
    (∀ a ∈ runAllocator picks [], a ∈ allAttributes) ∧
    (∀ q, showUniqueRandomAttributeHint (runAllocator picks []) q =
      (false, runAllocator picks [])) := by
  obtain ⟨hnd, hsub, hlen⟩ :=
    runAllocator_inv picks [] (by simp) (by simp) (by simp [h9])
  have hlen9 : (runAllocator picks []).length = 9 := by
    simpa [h9] using hlen
  refine ⟨?_, hnd, hlen9, hsub, fun q => allocator_exhausted _ q hnd hsub hlen9⟩
  intro i hi
  have hti : (picks.take i).length = i := by
    simp [h9]
    omega
  obtain ⟨hnd2, hsub2, hlen2⟩ :=
    runAllocator_inv (picks.take i) [] (by simp) (by simp) (by simp [hti]; omega)
  exact (hint_step_success _ (picks.getD i 0) hnd2 hsub2
    (by simp [hti] at hlen2; omega)).1

theorem claim_C3_witness :
    (runAllocator [0, 1, 2, 3, 4, 5, 6, 7, 8] []).Nodup ∧
    (runAllocator [0, 1, 2, 3, 4, 5, 6, 7, 8] []).length = 9 :=
  ⟨(claim_C3_allocator_exhaustion [0, 1, 2, 3, 4, 5, 6, 7, 8] (by decide)).2.1,
   (claim_C3_allocator_exhaustion [0, 1, 2, 3, 4, 5, 6, 7, 8] (by decide)).2.2.1⟩

/-- C2: `findPlayerByName` normalizes the query by trimming and
lower-casing; it returns the first record matching exactly
(case-insensitively), falls back to the first record matching by
case-insensitive substring in either direction with a length-3 floor on the
contained string only when no exact match exists, and otherwise reports not
found; query "lebron james" matches "LeBron James", query "jo" (length 2)
does not match "Jordan", and query "Jor" (length 3) matches "Jordan". -/
theorem claim_C2_findPlayerByName (ps : List Player) (q : String) :
    (∀ p, ps.find? (exactNameMatch (toLowerS (trimS q))) = some p →
      findPlayerByName ps q = some p) ∧
    (ps.find? (exactNameMatch (toLowerS (trimS q))) = none →
      findPlayerByName ps q = ps.find? (partialNameMatch (toLowerS (trimS q)))) ∧
    (findPlayerByName ps q = none ↔
      ∀ p ∈ ps, exactNameMatch (toLowerS (trimS q)) p = false ∧
        partialNameMatch (toLowerS (trimS q)) p = false) ∧
    findPlayerByName [mkPlayer "LeBron James"] "lebron james" =
      some (mkPlayer "LeBron James") ∧
    findPlayerByName [mkPlayer "Jordan"] "jo" = none ∧
    findPlayerByName [mkPlayer "Jordan"] "Jor" = some (mkPlayer "Jordan") := by
  refine ⟨?_, ?_, ?_, by decide, by decide, by decide⟩
  · intro p hp
    simp only [findPlayerByName]
    rw [hp]
  · intro h
    simp only [findPlayerByName]
    rw [h]
  · cases hE : ps.find? (exactNameMatch (toLowerS (trimS q))) with
    | some p =>
      have hfe : findPlayerByName ps q = some p := by
        simp only [findPlayerByName]
        rw [hE]
      rw [hfe]
      simp only [reduceCtorEq, false_iff]
      intro hforall
      have hmem := List.mem_of_find?_eq_some hE
      have hpred := List.find?_some hE
      have hfalse := (hforall p hmem).1
      rw [hfalse] at hpred
      exact Bool.false_ne_true hpred
    | none =>
      have hfe : findPlayerByName ps q =
          ps.find? (partialNameMatch (toLowerS (trimS q))) := by
        simp only [findPlayerByName]
        rw [hE]
      rw [hfe, List.find?_eq_none]
      constructor
      · intro hforall p hmem
        refine ⟨?_, ?_⟩
        · have := List.find?_eq_none.mp hE p hmem
          simpa using this
        · have := hforall p hmem
          simpa using this
      · intro hforall p hmem
        simp [(hforall p hmem).2]

theorem claim_C2_witness :
    findPlayerByName [mkPlayer "Jordan"] "Jor" =
      [mkPlayer "Jordan"].find? (partialNameMatch (toLowerS (trimS "Jor"))) :=
  (claim_C2_findPlayerByName [mkPlayer "Jordan"] "Jor").2.1 (by decide)

/-- C8: `getNameHint` is a pure function of name and level; on
"LeBron James" level 1 yields "L_ J_" (first letter of each part plus an
underscore, space-joined), and level 2 yields prefix-plus-underscore
patterns with the character-count annotations "(6 letters)" and
"(5 letters)" for "LeBron" and "James". -/
theorem claim_C8_getNameHint :
    getNameHint "LeBron James" 1 = "L_ J_" ∧
    getNameHint "LeBron James" 2 = "LeB___ (6 letters) Ja___ (5 letters)" ∧
    strContains (getNameHint "LeBron James" 2) "(6 letters)" = true ∧
    strContains (getNameHint "LeBron James" 2) "(5 letters)" = true := by
  refine ⟨by decide, by decide, by decide, by decide⟩

theorem runGame_nil (ps : List Player) (t : Player) (st : GameState) :
    runGame ps t st [] = st := rfl

theorem runGame_cons (ps : List Player) (t : Player) (st : GameState)
    (e : TurnEvent) (es : List TurnEvent) :
    runGame ps t st (e :: es) =
      if st.outcome = Outcome.Active ∧ st.attempts < maxAttempts then
        runGame ps t (stepTurn ps t st e) es
      else st := rfl

theorem runGame_stuck (ps : List Player) (t : Player) (st : GameState)
    (l : List TurnEvent)
    (h : ¬(st.outcome = Outcome.Active ∧ st.attempts < maxAttempts)) :
    runGame ps t st l = st := by
  cases l with
  | nil => rfl
  | cons e es => rw [runGame_cons, if_neg h]

theorem runGame_append (ps : List Player) (t : Player) (l₁ l₂ : List TurnEvent)
    (st : GameState) :
    runGame ps t st (l₁ ++ l₂) = runGame ps t (runGame ps t st l₁) l₂ := by
  induction l₁ generalizing st with
  | nil => rfl
  | cons e es ih =>
    rw [List.cons_append, runGame_cons, runGame_cons]
    by_cases hc : st.outcome = Outcome.Active ∧ st.attempts < maxAttempts
    · rw [if_pos hc, if_pos hc, ih]
    · rw [if_neg hc, if_neg hc, runGame_stuck ps t st l₂ hc]

/-- C4: in any session state, one turn of the game loop increments the
attempt counter exactly when the input is a guess (not "hint" or "quit"
after trimming, case-insensitively) that resolves through
`findPlayerByName` to a known player; all other turns leave it unchanged. -/
theorem claim_C4_attempt_counter (ps : List Player) (t : Player)
    (st : GameState) (ev : TurnEvent) :
    (stepTurn ps t st ev).attempts =
      st.attempts + (if countsAsAttempt ps ev then 1 else 0) := by
  cases ev with
  | timeout => rfl
  | line input pick =>
    rcases Bool.eq_false_or_eq_true (toLowerS (trimS input) == "quit") with hq | hq
    · simp [stepTurn, countsAsAttempt, hq]
    · rcases Bool.eq_false_or_eq_true (toLowerS (trimS input) == "hint") with hh | hh
      · simp only [stepTurn, countsAsAttempt, hq, hh]
        simp
        split_ifs <;> simp
      · cases hf : findPlayerByName ps (trimS input) with
        | none => simp [stepTurn, countsAsAttempt, hq, hh, hf]
        | some gp =>
          simp only [stepTurn, countsAsAttempt, hq, hh, hf]
          simp
          split_ifs <;> simp

theorem findPlayerByName_empty_query (ps : List Player)
    (hps : ∀ p ∈ ps, toLowerS p.Name ≠ "") :
    findPlayerByName ps "" = none := by
  have h0 : toLowerS (trimS "") = "" := rfl
  have hE : ps.find? (exactNameMatch (toLowerS (trimS ""))) = none := by
    apply List.find?_eq_none.mpr
    intro p hp
    simp only [exactNameMatch, h0, beq_iff_eq]
    exact hps p hp
  have hP : ps.find? (partialNameMatch (toLowerS (trimS ""))) = none := by
    apply List.find?_eq_none.mpr
    intro p hp
    simp only [partialNameMatch, h0]
    have h2 : strContains "" (toLowerS p.Name) = false := by
      cases hd : (toLowerS p.Name).data with
      | nil =>
        exact absurd (String.ext (hd.trans rfl)) (hps p hp)
      | cons c cs =>
        simp [strContains, containsChars, hd, leadsWith]
    simp [h2]
  simp only [findPlayerByName]
  rw [hE, hP]

theorem stepTurn_empty_line (ps : List Player) (t : Player) (st : GameState)
    (pick : Nat) (hps : ∀ p ∈ ps, toLowerS p.Name ≠ "") :
    stepTurn ps t st (TurnEvent.line "" pick) = st := by
  have hf := findPlayerByName_empty_query ps hps
  have ht : trimS "" = "" := rfl
  have hq : (toLowerS "" == "quit") = false := rfl
  have hh : (toLowerS "" == "hint") = false := rfl
  simp only [stepTurn, ht, hq, hh, Bool.false_eq_true, if_false, hf]

/-- C5: a closed or unreadable input stream (whose reads resolve as the
empty line, per the input goroutine) never changes the session state and
never produces a terminal outcome by itself, so such a session ends exactly
as if the deadline had been reached: when the timer finally fires the
outcome is LostByTime, with no crash modelled as a missing case. -/
theorem claim_C5_closed_stream (ps : List Player) (t : Player)
    (hps : ∀ p ∈ ps, toLowerS p.Name ≠ "") (st : GameState)
    (hA : st.outcome = Outcome.Active) (hAtt : st.attempts < maxAttempts)
    (n pick : Nat) :
    stepTurn ps t st (TurnEvent.line "" pick) = st ∧
    (runGame ps t st (List.replicate n (TurnEvent.line "" pick) ++
        [TurnEvent.timeout])).outcome = Outcome.LostByTime := by
  have hstep := stepTurn_empty_line ps t st pick hps
  refine ⟨hstep, ?_⟩
  induction n with
  | zero =>
    simp only [List.replicate, List.nil_append]
    rw [runGame_cons, if_pos ⟨hA, hAtt⟩]
    rfl
  | succ m ih =>
    rw [List.replicate_succ, List.cons_append, runGame_cons, if_pos ⟨hA, hAtt⟩,
      hstep]
    exact ih

theorem claim_C5_witness :
    stepTurn [mkPlayer "LeBron James"] (mkPlayer "LeBron James") initState
      (TurnEvent.line "" 0) = initState ∧
    (runGame [mkPlayer "LeBron James"] (mkPlayer "LeBron James") initState
      (List.replicate 2 (TurnEvent.line "" 0) ++ [TurnEvent.timeout])).outcome =
      Outcome.LostByTime :=
  claim_C5_closed_stream [mkPlayer "LeBron James"] (mkPlayer "LeBron James")
    (by decide) initState rfl (by decide) 2 0

theorem stepTurn_resolving (ps : List Player) (t : Player) (st : GameState)
    (ev : TurnEvent) (h : resolvesNonTargetB ps t ev = true) :
    stepTurn ps t st ev =
      if st.attempts + 1 = maxAttempts then
        { st with attempts := st.attempts + 1, outcome := Outcome.LostByAttempts }
      else { st with attempts := st.attempts + 1 } := by
  cases ev with
  | timeout => simp [resolvesNonTargetB] at h
  | line input pick =>
    simp only [resolvesNonTargetB, Bool.and_eq_true, Bool.not_eq_true'] at h
    obtain ⟨⟨hq, hh⟩, hres⟩ := h
    cases hf : findPlayerByName ps (trimS input) with
    | none =>
      rw [hf] at hres
      exact absurd hres (by simp)
    | some gp =>
      rw [hf] at hres
      have hneq : gp.Name ≠ t.Name := by simpa using hres
      simp only [stepTurn, hq, hh, hf, Bool.false_eq_true, if_false]
      rw [if_neg hneq]

theorem run_resolving (ps : List Player) (t : Player) (evs : List TurnEvent)
    (st : GameState) (hA : st.outcome = Outcome.Active)
    (hall : ∀ ev ∈ evs, resolvesNonTargetB ps t ev = true)
    (hsum : st.attempts + evs.length = maxAttempts) (hpos : 0 < evs.length) :
    runGame ps t st evs =
      { st with attempts := maxAttempts, outcome := Outcome.LostByAttempts } := by
  induction evs generalizing st with
  | nil => simp at hpos
  | cons e es ih =>
    have hstep := stepTurn_resolving ps t st e (hall e (by simp))
    rw [runGame_cons, if_pos ⟨hA, by simp at hsum; omega⟩, hstep]
    by_cases hend : st.attempts + 1 = maxAttempts
    · have hes : es = [] := by
        have : es.length = 0 := by simp at hsum; omega
        exact List.length_eq_zero.mp this
      subst hes
      rw [if_pos hend, runGame_nil, hend]
    · rw [if_neg hend]
      have hih := ih { st with attempts := st.attempts + 1 } hA
        (fun ev hm => hall ev (List.mem_cons_of_mem _ hm))
        (by simp at hsum ⊢; omega)
        (by simp at hsum ⊢; omega)
      rw [hih]

/-- C9: with maxAttempts = 8, a session in which 8 consecutive inputs each
resolve to a known player other than the target reaches LostByAttempts with
attempt counter 8 immediately after the 8th resolved guess, and any further
events are never consumed (a 9th input is never requested). -/
theorem claim_C9_eight_wrong_guesses (ps : List Player) (t : Player)
    (evs extra : List TurnEvent) (h8 : evs.length = 8)
    (hall : ∀ ev ∈ evs, resolvesNonTargetB ps t ev = true) :
    (runGame ps t initState (evs ++ extra)).outcome = Outcome.LostByAttempts ∧
    (runGame ps t initState (evs ++ extra)).attempts = maxAttempts ∧
    runGame ps t initState (evs ++ extra) = runGame ps t initState evs := by
  have hrun : runGame ps t initState evs =
      { initState with attempts := maxAttempts, outcome := Outcome.LostByAttempts } :=
    run_resolving ps t evs initState rfl hall (by simp [initState, maxAttempts, h8])
      (by omega)
  have happ := runGame_append ps t evs extra initState
  rw [happ, hrun, runGame_stuck ps t _ extra (by simp)]
  exact ⟨rfl, rfl, rfl⟩

theorem claim_C9_witness :
    (runGame [mkPlayer "Alpha", mkPlayer "Beta"] (mkPlayer "Beta") initState
      (List.replicate 8 (TurnEvent.line "Alpha" 0) ++
        [TurnEvent.line "Alpha" 0])).outcome = Outcome.LostByAttempts ∧
    (runGame [mkPlayer "Alpha", mkPlayer "Beta"] (mkPlayer "Beta") initState
      (List.replicate 8 (TurnEvent.line "Alpha" 0) ++
        [TurnEvent.line "Alpha" 0])).attempts = maxAttempts ∧
    runGame [mkPlayer "Alpha", mkPlayer "Beta"] (mkPlayer "Beta") initState
        (List.replicate 8 (TurnEvent.line "Alpha" 0) ++ [TurnEvent.line "Alpha" 0]) =
      runGame [mkPlayer "Alpha", mkPlayer "Beta"] (mkPlayer "Beta") initState
        (List.replicate 8 (TurnEvent.line "Alpha" 0)) :=
  claim_C9_eight_wrong_guesses [mkPlayer "Alpha", mkPlayer "Beta"] (mkPlayer "Beta")
    (List.replicate 8 (TurnEvent.line "Alpha" 0)) [TurnEvent.line "Alpha" 0]
    (by decide) (by decide)

theorem sessionInv_init : SessionInv initState := by
  refine ⟨rfl, List.nodup_nil, ?_, by simp [initState, maxHints]⟩
  intro a ha
  simp [initState] at ha

theorem sessionInv_step (ps : List Player) (t : Player) (st : GameState)
    (ev : TurnEvent) (h : SessionInv st) : SessionInv (stepTurn ps t st ev) := by
  obtain ⟨h1, h2, h3, h4⟩ := h
  cases ev with
  | timeout => exact ⟨h1, h2, h3, h4⟩
  | line input pick =>
    rcases Bool.eq_false_or_eq_true (toLowerS (trimS input) == "quit") with hq | hq
    · simp only [stepTurn, hq, if_true]
      exact ⟨h1, h2, h3, h4⟩
    · rcases Bool.eq_false_or_eq_true (toLowerS (trimS input) == "hint") with hh | hh
      · simp only [stepTurn, hq, hh, Bool.false_eq_true, if_false, if_true]
        by_cases hbudget : st.hintsUsed ≥ maxHints
        · simp only [if_pos hbudget]
          exact ⟨h1, h2, h3, h4⟩
        · simp only [if_neg hbudget]
          obtain ⟨hs, sel, hselA, hselN, hrec⟩ :=
            hint_step_success st.usedHintAttributes pick h2 h3
              (by simp [maxHints] at hbudget; omega)
          simp only [hs, if_true, hrec]
          refine ⟨by simp [h1], List.nodup_cons.mpr ⟨hselN, h2⟩, ?_,
            by simp [maxHints] at hbudget ⊢; omega⟩
          intro a ha
          rcases List.mem_cons.mp ha with hx | hx
          · exact hx ▸ hselA
          · exact h3 a hx
      · cases hf : findPlayerByName ps (trimS input) with
        | none =>
          simp only [stepTurn, hq, hh, Bool.false_eq_true, if_false, hf]
          exact ⟨h1, h2, h3, h4⟩
        | some gp =>
          simp only [stepTurn, hq, hh, Bool.false_eq_true, if_false, hf]
          split_ifs <;> exact ⟨h1, h2, h3, h4⟩

theorem sessionInv_run (ps : List Player) (t : Player) (evs : List TurnEvent)
    (st : GameState) (h : SessionInv st) : SessionInv (runGame ps t st evs) := by
  induction evs generalizing st with
  | nil => exact h
  | cons e es ih =>
    rw [runGame_cons]
    by_cases hc : st.outcome = Outcome.Active ∧ st.attempts < maxAttempts
    · rw [if_pos hc]
      exact ih _ (sessionInv_step ps t st e h)
    · rw [if_neg hc]
      exact h

/-- C10: in every state reachable by the game loop from the initial state,
the revealed-attribute set has exactly one entry per used hint; whenever the
hint-budget check passes (hintsUsed < maxHints = 3), at most 2 of the 9
hintable attributes are revealed and the allocator call is guaranteed to
succeed, so a hint turn under budget always increments the hint counter and
the allocator-exhausted branch (the "All available attributes have already
been revealed" message) is unreachable. -/
theorem claim_C10_exhausted_branch_unreachable (ps : List Player) (t : Player)
    (evs : List TurnEvent) (pick : Nat) :
    (runGame ps t initState evs).usedHintAttributes.length =
      (runGame ps t initState evs).hintsUsed ∧
    ((runGame ps t initState evs).hintsUsed < maxHints →
      (runGame ps t initState evs).usedHintAttributes.length ≤ 2 ∧
      (showUniqueRandomAttributeHint
        (runGame ps t initState evs).usedHintAttributes pick).1 = true) ∧
    ((runGame ps t initState evs).hintsUsed < maxHints →
      (stepTurn ps t (runGame ps t initState evs)
        (TurnEvent.line "hint" pick)).hintsUsed =
        (runGame ps t initState evs).hintsUsed + 1) := by
  obtain ⟨h1, h2, h3, h4⟩ := sessionInv_run ps t evs initState sessionInv_init
  have hlen : ∀ hlt : (runGame ps t initState evs).hintsUsed < maxHints,
      (runGame ps t initState evs).usedHintAttributes.length ≤ 2 := by
    intro hlt
    simp [maxHints] at hlt
    omega
  refine ⟨h1, fun hlt => ⟨hlen hlt, ?_⟩, fun hlt => ?_⟩
  · exact (hint_step_success _ pick h2 h3 (by have := hlen hlt; omega)).1
  · have hq : (toLowerS (trimS "hint") == "quit") = false := rfl
    have hh : (toLowerS (trimS "hint") == "hint") = true := rfl
    have hs := (hint_step_success
      (runGame ps t initState evs).usedHintAttributes pick h2 h3
      (by have := hlen hlt; omega)).1
    simp only [stepTurn, hq, hh, Bool.false_eq_true, if_false, if_true,
      if_neg (by omega : ¬(runGame ps t initState evs).hintsUsed ≥ maxHints), hs]

theorem claim_C10_witness :
    (showUniqueRandomAttributeHint
      (runGame [mkPlayer "Alpha"] (mkPlayer "Alpha") initState []).usedHintAttributes
      0).1 = true ∧
    (stepTurn [mkPlayer "Alpha"] (mkPlayer "Alpha")
      (runGame [mkPlayer "Alpha"] (mkPlayer "Alpha") initState [])
      (TurnEvent.line "hint" 0)).hintsUsed =
      (runGame [mkPlayer "Alpha"] (mkPlayer "Alpha") initState []).hintsUsed + 1 :=
  ⟨((claim_C10_exhausted_branch_unreachable [mkPlayer "Alpha"] (mkPlayer "Alpha")
      [] 0).2.1 (by decide)).2,
   (claim_C10_exhausted_branch_unreachable [mkPlayer "Alpha"] (mkPlayer "Alpha")
      [] 0).2.2 (by decide)⟩

end Hoop
